import Mathlib

/-!
Verification of the zarrs-cache tiered caching library.

This file gives a shallow embedding, in Lean 4, of the parts of the
repository relevant to the claims under audit:

* `src/cache/memory.rs`  — `LruMemoryCache` (bounded LRU, byte accounting)
* `src/cache/disk.rs`    — `DiskCache` (file-per-key store with an in-memory
                            index, LRU-by-last-access eviction)
* `src/cache/hybrid.rs`  — `HybridCache`, `AccessInfo::frequency`
* `src/prefetch.rs`      — chunk-key codec, `generate_sequential_keys`
* `src/warming.rs`       — `NeighborWarming`
* `src/metrics.rs`       — `SpatialLocalityTracker`

Modelling conventions:

* Rust `str`/`String` values that are parsed character by character are
  modelled as `List Char` (`Str` below); Lean's own `String` functions use
  well-founded recursion and are avoided.  Keys that are only compared for
  equality (`StoreKey`) stay `String`.
* `Bytes` is a list of byte values; only its length matters to the claims.
* `Instant` is a nanosecond timestamp (`Nat`); `Duration::from_secs(1)` is
  `1000000000` ns.  Rust's `Instant::duration_since` saturates at zero, as
  does `Nat` subtraction.
* `f64` arithmetic in `AccessInfo::frequency` and the locality score is
  modelled exactly over `ℚ` (all quantities involved are ratios of small
  integers, far from any floating-point edge behaviour).
* Async methods are sequential state-passing functions: every Rust method
  takes all its locks for the duration of the interesting work, and every
  claim speaks about quiescent points.
* Atomic counters (`current_size`, hit/miss tallies) are plain `Nat` fields;
  `fetch_sub` is `Nat` subtraction (exact whenever the code's own size
  invariant holds, which each theorem assumes or proves).
* `HashMap` / `LruCache` containers are association lists whose keys are
  unique; `HashMap` iteration order is left as list order (the only
  order-sensitive operation, `min_by_key`, is used by the claims only under
  a distinctness hypothesis that makes the choice unambiguous).
-/

/-- Error kinds from `src/error.rs`; only `CacheFull` and `Io` are reachable
in the modelled fragment. -/
inductive CacheError where
  | CacheFull
  | Io
deriving DecidableEq, Repr

instance {ε α : Type} [DecidableEq ε] [DecidableEq α] :
    DecidableEq (Except ε α) := fun x y =>
  match x, y with
  | Except.error a, Except.error b =>
    if h : a = b then isTrue (congrArg Except.error h)
    else isFalse (fun hh => h (by cases hh; rfl))
  | Except.ok a, Except.ok b =>
    if h : a = b then isTrue (congrArg Except.ok h)
    else isFalse (fun hh => h (by cases hh; rfl))
  | Except.error _, Except.ok _ => isFalse (fun hh => by cases hh)
  | Except.ok _, Except.error _ => isFalse (fun hh => by cases hh)

/-- `CacheStats` from `src/cache/mod.rs`. -/
structure CacheStats where
  hits : Nat
  misses : Nat
  size_bytes : Nat
  entry_count : Nat
deriving DecidableEq, Repr

/-- A byte buffer (`bytes::Bytes`); entries are byte values. -/
structure Bytes where
  data : List Nat
deriving DecidableEq, Repr

/-- `Bytes::len`. -/
def Bytes.len (b : Bytes) : Nat := b.data.length

/-- Rust `str` modelled as its character sequence. -/
abbrev Str := List Char

/-- `str::split(sep)`: splits on every occurrence of `sep`, keeping empty
segments; the empty string yields one empty segment, as in Rust. -/
def splitChar (sep : Char) : Str → List Str
  | [] => [[]]
  | c :: cs =>
    if c = sep then
      [] :: splitChar sep cs
    else
      match splitChar sep cs with
      | [] => [[c]]
      | seg :: rest => (c :: seg) :: rest

/-- Value of an ASCII digit. -/
def digitVal? (c : Char) : Option Nat :=
  if c.isDigit then some (c.toNat - 48) else none

/-- Digit-run accumulator for `parseI32?`; `none` accumulator means no digit
seen yet, so `"-"` and `""` fail as in Rust. -/
def parseDigits : Str → Option Nat → Option Nat
  | [], acc => acc
  | c :: cs, acc =>
    match digitVal? c, acc with
    | some d, some n => parseDigits cs (some (n * 10 + d))
    | some d, none => parseDigits cs (some d)
    | none, _ => none

/-- `str::parse::<i32>()`: optional sign, then at least one decimal digit and
nothing else.  Overflow of `i32` is not modelled; every coordinate in the
claims is tiny. -/
def parseI32? (s : Str) : Option Int :=
  match s with
  | [] => none
  | '-' :: rest => (parseDigits rest none).map (fun n => -(n : Int))
  | '+' :: rest => (parseDigits rest none).map (fun n => (n : Int))
  | _ => (parseDigits s none).map (fun n => (n : Int))

/-- Decimal digits of `n` (most significant first); `fuel ≥ 1 + n` always
suffices, mirroring `i32::to_string`. -/
def natToCharsAux : Nat → Nat → Str
  | 0, _ => []
  | _ + 1, 0 => []
  | fuel + 1, n =>
    natToCharsAux fuel (n / 10) ++ [Char.ofNat (48 + n % 10)]

/-- `i32::to_string`. -/
def intToChars (i : Int) : Str :=
  if i < 0 then '-' :: natToCharsAux (i.natAbs + 1) i.natAbs
  else if i = 0 then ['0']
  else natToCharsAux (i.natAbs + 1) i.natAbs

/-- `Vec::join(sep)` for one-character separators. -/
def joinSep (sep : Char) : List Str → Str
  | [] => []
  | [s] => s
  | s :: rest => s ++ sep :: joinSep sep rest

/-- `coordinates_to_zarr_key` from `src/prefetch.rs`:
`format!("{}/{}", array_name, coords.join("."))`. -/
def coordinates_to_zarr_key (arrayName : Str) (coords : List Int) : Str :=
  arrayName ++ '/' :: joinSep '.' (coords.map intToChars)

/-- `generate_sequential_keys` from `src/prefetch.rs`: for `i in 1..=lookahead`
a fresh copy of `coords` has its last coordinate incremented by `i` and is
formatted.  (`coords.getLastD 0` is the true last element: the branch is only
reached when `coords` is non-empty.) -/
def generate_sequential_keys (arrayName : Str) (coords : List Int)
    (lookahead : Nat) : List Str :=
  if coords.isEmpty then []
  else
    (List.range lookahead).map (fun j =>
      coordinates_to_zarr_key arrayName
        (coords.dropLast ++ [coords.getLastD 0 + ((j + 1 : Nat) : Int)]))

/-- Cache keys (`StoreKey = String` in `src/cache/mod.rs`). -/
abbrev StoreKey := String

namespace LruMemoryCache

/-- One entry of the `lru::LruCache` container: key plus `CacheEntry` value.
The TTL timestamp is omitted: every claim about this tier is stated for
`ttl = None`, for which `is_expired` is constantly false and
`cleanup_expired` is a no-op. -/
structure MemEntry where
  key : StoreKey
  data : Bytes
deriving DecidableEq, Repr

/-- `LruMemoryCache` state.  `entries` is in LRU order: head is the
least-recently-used entry (`pop_lru` side), the tail is the MRU side where
`put` inserts. -/
structure MemState where
  entries : List MemEntry
  current_size : Nat
  max_size_bytes : Nat
  hits : Nat
  misses : Nat
deriving DecidableEq, Repr

/-- Sum of the byte lengths of the values held in the LRU container. -/
def sumSizes (es : List MemEntry) : Nat := (es.map (fun e => e.data.len)).sum

/-- `LruMemoryCache::evict_if_needed` (memory.rs:78-92): while
`current_size + incoming > max_size_bytes`, pop the LRU entry and subtract
its bytes; `CacheFull` if the container runs empty first.  Returns the error
(if any) together with the mutated container and size counter. -/
def evict_if_needed (incoming max_size_bytes : Nat) :
    List MemEntry → Nat → Option CacheError × List MemEntry × Nat
  | entries, cur =>
    if cur + incoming > max_size_bytes then
      match entries with
      | [] => (some CacheError.CacheFull, [], cur)
      | e :: rest =>
        evict_if_needed incoming max_size_bytes rest (cur - e.data.len)
    else (none, entries, cur)

/-- `LruMemoryCache::set` (memory.rs:122-137): evict as needed, then
`cache.put`: an existing entry with the same key is replaced and moved to
MRU.  Faithfully to the source, the value returned by `put` is discarded, so
the replaced entry's size is never subtracted from `current_size`. -/
def set (s : MemState) (k : StoreKey) (v : Bytes) :
    Except CacheError Unit × MemState :=
  match evict_if_needed v.len s.max_size_bytes s.entries s.current_size with
  | (some err, es, cur) =>
    (Except.error err, { s with entries := es, current_size := cur })
  | (none, es, cur) =>
    (Except.ok (), { s with
      entries := (es.eraseP (fun e => e.key == k)) ++ [⟨k, v⟩],
      current_size := cur + v.len })

/-- `LruMemoryCache::remove` (memory.rs:139-148). -/
def remove (s : MemState) (k : StoreKey) : Except CacheError Unit × MemState :=
  match s.entries.find? (fun e => e.key == k) with
  | some e =>
    (Except.ok (), { s with
      entries := s.entries.eraseP (fun e2 => e2.key == k),
      current_size := s.current_size - e.data.len })
  | none => (Except.ok (), s)

/-- `LruMemoryCache::clear` (memory.rs:150-155). -/
def clear (s : MemState) : Except CacheError Unit × MemState :=
  (Except.ok (), { s with entries := [], current_size := 0 })

/-- `LruMemoryCache::size` (memory.rs:157-159). -/
def size (s : MemState) : Nat := s.current_size

/-- `LruMemoryCache::stats` (memory.rs:161-170). -/
def stats (s : MemState) : CacheStats :=
  ⟨s.hits, s.misses, s.current_size, s.entries.length⟩

/-- The tier's intended accounting invariant: the tracked byte total equals
the bytes actually held. -/
def Wf (s : MemState) : Prop := s.current_size = sumSizes s.entries

end LruMemoryCache

namespace DiskCache

/-- One row of the disk tier's in-memory index (`CacheMetadata` plus its
key).  `file_path` is determined by the key and carries no extra
information, so it is not repeated here; timestamps are nanoseconds. -/
structure DiskEntry where
  key : StoreKey
  size : Nat
  created_at : Nat
  last_accessed : Nat
deriving DecidableEq, Repr

/-- `DiskCache` state.  TTL is omitted (all claims are for `ttl = None`) and
file contents live outside the model: reads and writes are assumed to
succeed, which is the happy path every claim speaks about. -/
structure DiskState where
  entries : List DiskEntry
  current_size : Nat
  max_size_bytes : Option Nat
  hits : Nat
  misses : Nat
deriving DecidableEq, Repr

/-- Sum of the sizes recorded in the index. -/
def sumSizes (es : List DiskEntry) : Nat := (es.map (fun e => e.size)).sum

/-- `index.iter().min_by_key(|(_, m)| m.last_accessed)`: the first minimal
entry in iteration order (`HashMap` order is arbitrary; the claims only use
this under pairwise-distinct `last_accessed`, where the choice is unique). -/
def min_by_last : List DiskEntry → Option DiskEntry
  | [] => none
  | e :: es =>
    match min_by_last es with
    | none => some e
    | some m => if e.last_accessed ≤ m.last_accessed then some e else some m

/-- The eviction loop of `DiskCache::evict_if_needed` (disk.rs:119-154):
while `current_size + incoming > max`, remove the least-recently-accessed
index entry (and its file) and subtract its size; `CacheFull` if the index
runs empty first.  `fuel` is a termination device only: each iteration
removes one entry, so `fuel = entries.length` never reaches the
fuel-exhaustion branch (proved in `evict_loop_fuel_irrelevant`-style lemmas
below).  The source's inner `else break` (a `HashMap::remove` miss for a key
just produced by iteration) is unreachable and has no counterpart. -/
def evict_loop (incoming max_size : Nat) :
    Nat → List DiskEntry → Nat → Option CacheError × List DiskEntry × Nat
  | fuel, es, cur =>
    if cur + incoming > max_size then
      match min_by_last es with
      | none => (some CacheError.CacheFull, es, cur)
      | some m =>
        match fuel with
        | 0 => (some CacheError.CacheFull, es, cur)
        | fuel' + 1 =>
          evict_loop incoming max_size fuel' (es.erase m) (cur - m.size)
    else (none, es, cur)

/-- `DiskCache::evict_if_needed` (disk.rs:119-154): no bound, no work. -/
def evict_if_needed (s : DiskState) (incoming : Nat) :
    Option CacheError × DiskState :=
  match s.max_size_bytes with
  | none => (none, s)
  | some m =>
    match evict_loop incoming m s.entries.length s.entries s.current_size with
    | (r, es, cur) => (r, { s with entries := es, current_size := cur })

/-- `DiskCache::set` (disk.rs:212-245): evict if needed, write the file
(assumed to succeed), then replace any old index entry — subtracting its
recorded size — and insert fresh metadata with `created_at = last_accessed =
now`. -/
def set (s : DiskState) (k : StoreKey) (v : Bytes) (now : Nat) :
    Except CacheError Unit × DiskState :=
  match evict_if_needed s v.len with
  | (some err, s') => (Except.error err, s')
  | (none, s') =>
    let oldSize :=
      match s'.entries.find? (fun e => e.key == k) with
      | some old => old.size
      | none => 0
    (Except.ok (), { s' with
      entries := (s'.entries.eraseP (fun e => e.key == k)) ++
        [⟨k, v.len, now, now⟩],
      current_size := s'.current_size - oldSize + v.len })

/-- `DiskCache::get` (disk.rs:159-210) with `ttl = None` and a readable
file: on a hit the index entry's `last_accessed` is set to `now` (in place —
`HashMap` has no positions) and `hits` is bumped; on a miss `misses` is
bumped.  The returned flag stands for the returned bytes, which live in the
unmodelled file. -/
def get (s : DiskState) (k : StoreKey) (now : Nat) : Option Unit × DiskState :=
  match s.entries.find? (fun e => e.key == k) with
  | some _ =>
    (some (), { s with
      entries := s.entries.map (fun e =>
        if e.key == k then { e with last_accessed := now } else e),
      hits := s.hits + 1 })
  | none => (none, { s with misses := s.misses + 1 })

/-- `DiskCache::size` (disk.rs:284-286). -/
def size (s : DiskState) : Nat := s.current_size

/-- `DiskCache::stats` (disk.rs:288-297). -/
def stats (s : DiskState) : CacheStats :=
  ⟨s.hits, s.misses, s.current_size, s.entries.length⟩

/-- The accounting invariant the disk tier maintains. -/
def Wf (s : DiskState) : Prop := s.current_size = sumSizes s.entries

end DiskCache

/-- `AccessInfo` from `src/cache/hybrid.rs`: per-key access statistics of the
hybrid engine's tracker.  Instants are nanoseconds. -/
structure AccessInfo where
  count : Nat
  last_access : Nat
  promoted_at : Option Nat
deriving DecidableEq, Repr

namespace AccessInfo

/-- `AccessInfo::new` (hybrid.rs:21-27). -/
def new (now : Nat) : AccessInfo := ⟨1, now, none⟩

/-- `AccessInfo::update_access` (hybrid.rs:29-32). -/
def update_access (a : AccessInfo) (now : Nat) : AccessInfo :=
  { a with count := a.count + 1, last_access := now }

/-- `AccessInfo::frequency` (hybrid.rs:38-49): the age is
`last_access.duration_since(promoted_at.unwrap_or(last_access - 1s))`
(saturating at zero, like `Instant::duration_since`), and the result is
`count / age_in_seconds` when the age is positive, else `count`.
`count as f64 / age.as_secs_f64()` is the exact rational
`count * 10^9 / age_ns`. -/
def frequency (a : AccessInfo) : ℚ :=
  let promoted := a.promoted_at.getD (a.last_access - 1000000000)
  let ageNs := a.last_access - promoted
  if 0 < ageNs then (a.count : ℚ) * 1000000000 / (ageNs : ℚ)
  else (a.count : ℚ)

/-- Modelled from the spec: the frequency formula the specification states,
`count / max(1 second, now − promoted_at)` with `promoted_at` falling back
to `last_access − 1s` — written here only to be compared against
`AccessInfo.frequency`, which is translated from the source. -/
def spec_frequency (now : Nat) (a : AccessInfo) : ℚ :=
  let promoted := a.promoted_at.getD (a.last_access - 1000000000)
  (a.count : ℚ) * 1000000000 / (max 1000000000 (now - promoted) : ℚ)

end AccessInfo

namespace HybridCache

/-- `HybridCache` state: the two tiers plus the access tracker
(`HashMap<String, AccessInfo>` as an association list with unique keys).
The configuration's `promotion_threshold` is passed to the operations
explicitly. -/
structure HybridState where
  memory : LruMemoryCache.MemState
  disk : DiskCache.DiskState
  tracker : List (StoreKey × AccessInfo)
deriving DecidableEq, Repr

/-- `HybridCache::track_access` (hybrid.rs:201-209): update an existing
entry's count and last-access instant, or insert a fresh `AccessInfo`. -/
def track_access (tr : List (StoreKey × AccessInfo)) (k : StoreKey)
    (now : Nat) : List (StoreKey × AccessInfo) :=
  match tr.find? (fun p => p.1 == k) with
  | some _ =>
    tr.map (fun p => if p.1 == k then (p.1, p.2.update_access now) else p)
  | none => tr ++ [(k, AccessInfo.new now)]

/-- `HybridCache::set` (hybrid.rs:271-294): track the access, always write
to disk (propagating disk errors), then write to memory exactly when the
tracker entry — which now always exists, `track_access` having run first —
reports `frequency ≥ promotion_threshold`; the `unwrap_or(true)` default is
therefore unreachable here.  A memory-tier failure is only logged. -/
def set (threshold : ℚ) (now : Nat) (h : HybridState) (k : StoreKey)
    (v : Bytes) : Except CacheError Unit × HybridState :=
  let tr := track_access h.tracker k now
  match DiskCache.set h.disk k v now with
  | (Except.error e, d2) =>
    (Except.error e, { h with tracker := tr, disk := d2 })
  | (Except.ok _, d2) =>
    let shouldCache : Bool :=
      match tr.find? (fun p => p.1 == k) with
      | some p => decide (threshold ≤ AccessInfo.frequency p.2)
      | none => true
    cond shouldCache
      (Except.ok (), ⟨(LruMemoryCache.set h.memory k v).2, d2, tr⟩)
      (Except.ok (), ⟨h.memory, d2, tr⟩)

/-- `HybridCache::size` (hybrid.rs:320-322). -/
def size (h : HybridState) : Nat :=
  LruMemoryCache.size h.memory + DiskCache.size h.disk

/-- `HybridCache::stats` (hybrid.rs:324-336): hits and misses are summed
across the tiers, `size_bytes` is the sum of both tiers' byte counts, and
`entry_count` is the disk tier's (authoritative) count. -/
def stats (h : HybridState) : CacheStats :=
  let memory_stats := LruMemoryCache.stats h.memory
  let disk_stats := DiskCache.stats h.disk
  ⟨memory_stats.hits + disk_stats.hits,
   memory_stats.misses + disk_stats.misses,
   memory_stats.size_bytes + disk_stats.size_bytes,
   disk_stats.entry_count⟩

end HybridCache

/-- Rust `String` ordering (`Vec::sort`): lexicographic on the character
sequence; for `char` this byte-wise UTF-8 order coincides with code-point
order. -/
def strLe : Str → Str → Bool
  | [], _ => true
  | _ :: _, [] => false
  | a :: as2, b :: bs =>
    if a.toNat < b.toNat then true
    else if b.toNat < a.toNat then false
    else strLe as2 bs

/-- Insert into a `strLe`-sorted list, keeping existing order on ties. -/
def insertSorted (x : Str) : List Str → List Str
  | [] => [x]
  | y :: ys => if strLe x y then x :: y :: ys else y :: insertSorted x ys

/-- `Vec::sort`: a stable sort by `strLe`.  `strLe` is total and
antisymmetric (ties only between identical strings), so every sort produces
the same list; insertion sort is used because it is structurally recursive
and therefore kernel-evaluable. -/
def sortStrs : List Str → List Str
  | [] => []
  | x :: xs => insertSorted x (sortStrs xs)

/-- `Vec::dedup`: collapse runs of consecutive equal elements. -/
def dedupAdj : List Str → List Str
  | [] => []
  | [a] => [a]
  | a :: b :: rest =>
    if a = b then dedupAdj (b :: rest) else a :: dedupAdj (b :: rest)

namespace NeighborWarming

/-- `NeighborWarming` (warming.rs:197-209). -/
structure Config where
  neighbor_distance : Nat
  max_warm_keys : Nat
deriving DecidableEq, Repr

/-- The part of `WarmingContext` (warming.rs:44-61) that `NeighborWarming`
consults: the recently-accessed keys with their access counts (a `HashMap`,
modelled as an association list).  `hit_rate`, capacity and the time context
are never read by this strategy. -/
structure WarmingContext where
  recent_access : List (Str × Nat)
deriving DecidableEq, Repr

/-- `NeighborWarming::generate_neighbors` (warming.rs:212-261): split the
key into `array_name/coord_str`, parse every `.`-separated component of
`coord_str` with `str::parse::<i32>` (note: no `chunk_` prefix is stripped
here, unlike the analytics tracker's parser), and on success emit, dimension
by dimension and offset `1..=neighbor_distance`, the positive then negative
neighbor whenever its mutated component is non-negative; finally truncate to
`max_warm_keys`.  The formatting is the same `join(".")`/`format!` as
`coordinates_to_zarr_key`. -/
def generate_neighbors (w : Config) (key : Str) : List Str :=
  match splitChar '/' key with
  | [arrayName, coordStr] =>
    match (splitChar '.' coordStr).mapM parseI32? with
    | none => []
    | some coords =>
      let neighbors :=
        (List.range coords.length).flatMap (fun dim =>
          (List.range w.neighbor_distance).flatMap (fun o =>
            let offset : Int := (o : Int) + 1
            let c := coords.getD dim 0
            (if 0 ≤ c + offset then
              [coordinates_to_zarr_key arrayName (coords.set dim (c + offset))]
             else []) ++
            (if 0 ≤ c - offset then
              [coordinates_to_zarr_key arrayName (coords.set dim (c - offset))]
             else [])))
      neighbors.take w.max_warm_keys
  | _ => []

/-- `NeighborWarming::generate_warming_keys` (warming.rs:266-281): collect
the neighbors of every recently-accessed key, sort, dedup, truncate to
`max_warm_keys`. -/
def generate_warming_keys (w : Config) (ctx : WarmingContext) : List Str :=
  let allNeighbors :=
    (ctx.recent_access.map Prod.fst).flatMap (generate_neighbors w)
  (dedupAdj (sortStrs allNeighbors)).take w.max_warm_keys

end NeighborWarming

namespace SpatialLocalityTracker

/-- `ChunkCoordinate` from `src/metrics.rs`. -/
structure ChunkCoordinate where
  array_name : Str
  coordinates : List Int
deriving DecidableEq, Repr

/-- `SpatialLocalityTracker::are_neighbors` (metrics.rs:547-564): same array
name and arity, every per-dimension absolute difference ≤ 1, and exactly one
dimension differing by 1.  (The source's early `return false` on a
difference > 1 is the `all` conjunct.) -/
def are_neighbors (a b : ChunkCoordinate) : Bool :=
  if a.array_name = b.array_name ∧
      a.coordinates.length = b.coordinates.length then
    let diffs := (a.coordinates.zip b.coordinates).map
      (fun p => (p.1 - p.2).natAbs)
    diffs.all (fun d => d ≤ 1) && (diffs.count 1 == 1)
  else false

/-- `SpatialLocalityTracker::calculate_locality_score` (metrics.rs:522-545):
zero for fewer than two recorded coordinates, otherwise the fraction of
adjacent pairs (`windows(2)` of the recent-sequence deque, modelled as
`zip seq seq.tail`) that are neighbors.  `f64` division is exact `ℚ`
division here. -/
def calculate_locality_score (seq : List ChunkCoordinate) : ℚ :=
  if seq.length < 2 then 0
  else
    let pairs := seq.zip seq.tail
    let total := pairs.length
    let events := pairs.countP (fun p => are_neighbors p.1 p.2)
    if 0 < total then (events : ℚ) / (total : ℚ) else 0

end SpatialLocalityTracker

/-! ## Claim C1 — memory-tier byte accounting -/

/-- Claim C1: the memory tier's `size()` is claimed to equal the sum of the
byte lengths of the values currently held, in particular after a `set` that
replaces an existing key.  Evaluating the code at the failing input: on a
100-byte tier, `set("k", 3 bytes)` then `set("k", 5 bytes)` leaves a single
5-byte value indexed while `size()` reports 8 — `LruMemoryCache::set`
discards the old entry that `LruCache::put` returns and never subtracts its
size. -/
theorem memory_set_replacement_leaks_size :
    LruMemoryCache.size
        (LruMemoryCache.set
          (LruMemoryCache.set ⟨[], 0, 100, 0, 0⟩ ("k") ⟨[0, 0, 0]⟩).2
          ("k") ⟨[0, 0, 0, 0, 0]⟩).2 = 8 ∧
    LruMemoryCache.sumSizes
        (LruMemoryCache.set
          (LruMemoryCache.set ⟨[], 0, 100, 0, 0⟩ ("k") ⟨[0, 0, 0]⟩).2
          ("k") ⟨[0, 0, 0, 0, 0]⟩).2.entries = 5 ∧
    (LruMemoryCache.set
        (LruMemoryCache.set ⟨[], 0, 100, 0, 0⟩ ("k") ⟨[0, 0, 0]⟩).2
        ("k") ⟨[0, 0, 0, 0, 0]⟩).2.entries =
      [⟨("k"), ⟨[0, 0, 0, 0, 0]⟩⟩] := by
  decide

/-! ## Claim C2 — sequential key generation -/

/-- Claim C2 counterexample: the claim says the `i`-th emitted key adds the
cumulative `1+2+…+i` to the last coordinate (`+1`, `+3`, `+6`, …).  On
`("array", [5,10,15], lookahead 3)` the code emits `5.10.16`, `5.10.17`,
`5.10.18` — the second key is not `5.10.18` and the third is not `5.10.21`
as the cumulative reading demands (the source's own unit test
`test_sequential_generation` asserts the same three keys). -/
theorem sequential_keys_not_cumulative_counterexample :
    generate_sequential_keys ("array".data) [5, 10, 15] 3 =
      [("array/5.10.16".data), ("array/5.10.17".data),
       ("array/5.10.18".data)] ∧
    (generate_sequential_keys ("array".data) [5, 10, 15] 3)[1]? ≠
      some ("array/5.10.18".data) ∧
    (generate_sequential_keys ("array".data) [5, 10, 15] 3)[2]? ≠
      some ("array/5.10.21".data) := by
  decide

/-- Claim C2 (amended): for every array name, non-empty `coords` and
lookahead `L`, exactly `L` keys are emitted, and the `i`-th (0-based) key is
`coords` with its last coordinate incremented by `i + 1` — a fresh copy of
`coords` is mutated each iteration, so the increments are `1, 2, …, L`, not
cumulative. -/
theorem sequential_keys_stride_one_increments
    (arrayName : Str) (coords : List Int) (lookahead : Nat)
    (hne : coords ≠ []) :
    (generate_sequential_keys arrayName coords lookahead).length = lookahead ∧
    ∀ i, i < lookahead →
      (generate_sequential_keys arrayName coords lookahead)[i]? =
        some (coordinates_to_zarr_key arrayName
          (coords.dropLast ++ [coords.getLastD 0 + ((i + 1 : Nat) : Int)])) := by
  have hne' : generate_sequential_keys arrayName coords lookahead =
      (List.range lookahead).map (fun j =>
        coordinates_to_zarr_key arrayName
          (coords.dropLast ++ [coords.getLastD 0 + ((j + 1 : Nat) : Int)])) := by
    unfold generate_sequential_keys
    rw [if_neg]
    cases coords with
    | nil => exact absurd rfl hne
    | cons c cs => simp
  constructor
  · rw [hne', List.length_map, List.length_range]
  · intro i hi
    rw [hne', List.getElem?_map, List.getElem?_range hi]
    rfl

/-- Witness for `sequential_keys_stride_one_increments` at
`("array", [5,10,15], 3)`, `i = 2`. -/
theorem sequential_keys_stride_one_increments_witness :
    (generate_sequential_keys ("array".data) [5, 10, 15] 3)[2]? =
      some (coordinates_to_zarr_key ("array".data)
        (([5, 10, 15] : List Int).dropLast ++
          [([5, 10, 15] : List Int).getLastD 0 + ((2 + 1 : Nat) : Int)])) :=
  (sequential_keys_stride_one_increments ("array".data) [5, 10, 15] 3
    (by decide)).2 2 (by decide)

/-! ## Claim C3 — neighbor warming on `chunk_`-prefixed keys -/

/-- Claim C3 counterexample: with the tracker having observed exactly
`"temperature/chunk_2.2.2"`, `NeighborWarming(distance 1, max 8)` does not
generate the six claimed neighbor keys: the coordinate segment
`"chunk_2.2.2"` splits into `["chunk_2","2","2"]` and `"chunk_2"` fails
`i32` parsing (this strategy, unlike the analytics tracker, strips no
`chunk_` prefix), so `generate_neighbors` yields nothing at all. -/
theorem neighbor_warming_chunk_prefix_counterexample :
    NeighborWarming.generate_warming_keys ⟨1, 8⟩
        ⟨[(("temperature/chunk_2.2.2".data), 1)]⟩ ≠
      [("temperature/chunk_3.2.2".data), ("temperature/chunk_1.2.2".data),
       ("temperature/chunk_2.3.2".data), ("temperature/chunk_2.1.2".data),
       ("temperature/chunk_2.2.3".data), ("temperature/chunk_2.2.1".data)] ∧
    parseI32? ("chunk_2".data) = none := by
  decide

/-- Claim C3 (amended): on the context whose `recent_access` holds exactly
`"temperature/chunk_2.2.2"`, `NeighborWarming(distance 1, max 8)` generates
no keys at all, because the coordinate components fail integer parsing. -/
theorem neighbor_warming_chunk_prefix_yields_empty :
    NeighborWarming.generate_warming_keys ⟨1, 8⟩
      ⟨[(("temperature/chunk_2.2.2".data), 1)]⟩ = [] := by
  decide

/-! ## Claim C4 — access-frequency formula -/

/-- Claim C4 counterexample: for a record with `count = 1` promoted half a
second before its last access, the code computes `1 / 0.5s = 2` accesses per
second, while the claimed formula `count / max(1s, now − promoted_at)`
(evaluated at `now = last_access`) yields `1`. -/
theorem frequency_formula_counterexample :
    AccessInfo.frequency ⟨1, 2000000000, some 1500000000⟩ = 2 ∧
    AccessInfo.spec_frequency 2000000000 ⟨1, 2000000000, some 1500000000⟩ = 1 ∧
    (2 : ℚ) ≠ 1 := by
  refine ⟨?_, ?_, by norm_num⟩
  · norm_num [AccessInfo.frequency]
  · norm_num [AccessInfo.spec_frequency]

/-- Unfolding equation for `AccessInfo.frequency` with the `let` bindings
expanded. -/
theorem AccessInfo.frequency_eq (a : AccessInfo) :
    AccessInfo.frequency a =
      if 0 < a.last_access - a.promoted_at.getD (a.last_access - 1000000000)
      then (a.count : ℚ) * 1000000000 /
        ((a.last_access -
          a.promoted_at.getD (a.last_access - 1000000000) : Nat) : ℚ)
      else (a.count : ℚ) := rfl

/-- Claim C4 (amended): the frequency is `count` divided by the span
`last_access − promoted_at` in seconds when that span is positive and plain
`count` otherwise, with `promoted_at` falling back to `last_access − 1s`
(so a never-promoted record always reports exactly `count` per second); for
every record with `count ≥ 1` the result is positive (and, being a rational
of bounded integers, finite). -/
theorem frequency_positive_and_formula (a : AccessInfo) (hc : 1 ≤ a.count) :
    0 < AccessInfo.frequency a ∧
    (∀ p, a.promoted_at = some p →
      AccessInfo.frequency a =
        if 0 < a.last_access - p then
          (a.count : ℚ) * 1000000000 / ((a.last_access - p : Nat) : ℚ)
        else (a.count : ℚ)) ∧
    (a.promoted_at = none → 1000000000 ≤ a.last_access →
      AccessInfo.frequency a = (a.count : ℚ)) := by
  have hc' : (0 : ℚ) < (a.count : ℚ) := by exact_mod_cast hc
  refine ⟨?_, ?_, ?_⟩
  · rw [AccessInfo.frequency_eq]
    by_cases hage :
        0 < a.last_access - a.promoted_at.getD (a.last_access - 1000000000)
    · rw [if_pos hage]
      apply div_pos
      · have h9 : (0 : ℚ) < 1000000000 := by norm_num
        exact mul_pos hc' h9
      · exact_mod_cast hage
    · rw [if_neg hage]
      exact hc'
  · intro p hp
    rw [AccessInfo.frequency_eq, hp, Option.getD_some]
  · intro hp hlate
    have hself : a.last_access - (a.last_access - 1000000000) = 1000000000 :=
      Nat.sub_sub_self hlate
    rw [AccessInfo.frequency_eq, hp, Option.getD_none, hself]
    rw [if_pos (by norm_num)]
    rw [mul_div_assoc]
    norm_num

/-- Witness for `frequency_positive_and_formula` at a never-promoted record
with `count = 3`. -/
theorem frequency_positive_and_formula_witness :
    0 < AccessInfo.frequency ⟨3, 2000000000, none⟩ ∧
    AccessInfo.frequency ⟨3, 2000000000, none⟩ = 3 := by
  obtain ⟨h1, _, h3⟩ :=
    frequency_positive_and_formula ⟨3, 2000000000, none⟩ (by decide)
  exact ⟨h1, by simpa using h3 rfl (by norm_num)⟩

/-! ## Memory-tier eviction lemmas (claims C7, C10) -/

/-- When the incoming value alone exceeds the bound, the memory eviction
loop drains the whole container and fails with `CacheFull`. -/
theorem LruMemoryCache.evict_if_needed_of_oversized
    {incoming max_size : Nat} (hbig : max_size < incoming) :
    ∀ (es : List LruMemoryCache.MemEntry) (cur : Nat),
      cur = LruMemoryCache.sumSizes es →
      LruMemoryCache.evict_if_needed incoming max_size es cur =
        (some CacheError.CacheFull, [], 0) := by
  intro es
  induction es with
  | nil =>
    intro cur hcur
    have hcur0 : cur = 0 := by simpa [LruMemoryCache.sumSizes] using hcur
    subst hcur0
    unfold LruMemoryCache.evict_if_needed
    rw [if_pos (by omega)]
  | cons e rest ih =>
    intro cur hcur
    have hcur' : cur - e.data.len = LruMemoryCache.sumSizes rest := by
      simp only [LruMemoryCache.sumSizes, List.map_cons, List.sum_cons]
        at hcur ⊢
      omega
    unfold LruMemoryCache.evict_if_needed
    rw [if_pos (by omega)]
    exact ih (cur - e.data.len) hcur'

/-- When the incoming value fits the bound, the memory eviction loop
succeeds, dropping the shortest LRU-side prefix that makes room: the
survivors are `es.drop j` for the least `j` with
`sumSizes (es.drop j) + incoming ≤ max_size`. -/
theorem LruMemoryCache.evict_if_needed_of_fits
    {incoming max_size : Nat} (hfit : incoming ≤ max_size) :
    ∀ (es : List LruMemoryCache.MemEntry) (cur : Nat),
      cur = LruMemoryCache.sumSizes es →
      ∃ j, LruMemoryCache.evict_if_needed incoming max_size es cur =
          (none, es.drop j, LruMemoryCache.sumSizes (es.drop j)) ∧
        LruMemoryCache.sumSizes (es.drop j) + incoming ≤ max_size ∧
        ∀ j', j' < j →
          max_size < LruMemoryCache.sumSizes (es.drop j') + incoming := by
  intro es
  induction es with
  | nil =>
    intro cur hcur
    have hcur0 : cur = 0 := by simpa [LruMemoryCache.sumSizes] using hcur
    subst hcur0
    refine ⟨0, ?_, ?_, ?_⟩
    · unfold LruMemoryCache.evict_if_needed
      rw [if_neg (by simp [LruMemoryCache.sumSizes]; omega)]
      simp [LruMemoryCache.sumSizes]
    · simpa [LruMemoryCache.sumSizes] using hfit
    · intro j' hj'
      omega
  | cons e rest ih =>
    intro cur hcur
    by_cases hcond : max_size < cur + incoming
    · have hcur' : cur - e.data.len = LruMemoryCache.sumSizes rest := by
        simp only [LruMemoryCache.sumSizes, List.map_cons, List.sum_cons]
          at hcur ⊢
        omega
      obtain ⟨j, hj, hle, hmin⟩ := ih (cur - e.data.len) hcur'
      refine ⟨j + 1, ?_, ?_, ?_⟩
      · unfold LruMemoryCache.evict_if_needed
        rw [if_pos (by omega)]
        simpa using hj
      · simpa using hle
      · intro j' hj'
        cases j' with
        | zero =>
          simp only [List.drop_zero]
          have : LruMemoryCache.sumSizes (e :: rest) = cur := hcur.symm
          omega
        | succ k =>
          have hk : k < j := by omega
          simpa using hmin k hk
    · refine ⟨0, ?_, ?_, ?_⟩
      · unfold LruMemoryCache.evict_if_needed
        rw [if_neg (by omega)]
        simp [hcur]
      · simp only [List.drop_zero]
        omega
      · intro j' hj'
        omega

/-! ## Claim C7 — memory-tier `set`: eviction, `CacheFull`, MRU insertion -/

/-- Claim C7: on the memory tier (with the size invariant holding),
`set(k, v)` fails with `CacheFull` exactly when `|v|` exceeds `max_size`
(the loop having emptied the container without making room); otherwise it
evicts exactly the LRU entries that are needed — the survivors are the
shortest-dropped suffix that fits — and inserts `k` at the MRU end, with the
size counter set accordingly.  In particular, on an empty tier a value of
exactly `max_size` bytes is admitted. -/
theorem memory_set_eviction_and_cachefull
    (s : LruMemoryCache.MemState) (k : StoreKey) (v : Bytes)
    (hwf : LruMemoryCache.Wf s) :
    ((LruMemoryCache.set s k v).1 = Except.error CacheError.CacheFull ↔
      s.max_size_bytes < v.len) ∧
    (v.len ≤ s.max_size_bytes →
      (LruMemoryCache.set s k v).1 = Except.ok () ∧
      ∃ j, (LruMemoryCache.set s k v).2.entries =
          ((s.entries.drop j).eraseP (fun e => e.key == k)) ++ [⟨k, v⟩] ∧
        (LruMemoryCache.set s k v).2.current_size =
          LruMemoryCache.sumSizes (s.entries.drop j) + v.len ∧
        LruMemoryCache.sumSizes (s.entries.drop j) + v.len ≤
          s.max_size_bytes ∧
        ∀ j', j' < j →
          s.max_size_bytes <
            LruMemoryCache.sumSizes (s.entries.drop j') + v.len) ∧
    (s.entries = [] → v.len = s.max_size_bytes →
      (LruMemoryCache.set s k v).1 = Except.ok () ∧
      (LruMemoryCache.set s k v).2.entries = [⟨k, v⟩]) := by
  by_cases hbig : s.max_size_bytes < v.len
  · have hev := LruMemoryCache.evict_if_needed_of_oversized hbig
      s.entries s.current_size hwf
    refine ⟨?_, ?_, ?_⟩
    · simp [LruMemoryCache.set, hev, hbig]
    · intro hfit
      omega
    · intro _ hexact
      omega
  · push_neg at hbig
    obtain ⟨j, hj, hle, hmin⟩ := LruMemoryCache.evict_if_needed_of_fits hbig
      s.entries s.current_size hwf
    refine ⟨?_, ?_, ?_⟩
    · simp [LruMemoryCache.set, hj]
      omega
    · intro _
      refine ⟨by simp [LruMemoryCache.set, hj], j, ?_, ?_, hle, hmin⟩
      · simp [LruMemoryCache.set, hj]
      · simp [LruMemoryCache.set, hj]
    · intro hempty hexact
      rw [hempty] at hj
      simp only [List.drop_nil] at hj
      constructor
      · simp [LruMemoryCache.set, hempty, hj]
      · simp [LruMemoryCache.set, hempty, hj]

/-- Witness for `memory_set_eviction_and_cachefull`: an empty 4-byte tier
admits a 4-byte value and holds exactly that entry afterwards. -/
theorem memory_set_eviction_and_cachefull_witness :
    (LruMemoryCache.set ⟨[], 0, 4, 0, 0⟩ ("k") ⟨[0, 0, 0, 0]⟩).1 =
      Except.ok () ∧
    (LruMemoryCache.set ⟨[], 0, 4, 0, 0⟩ ("k") ⟨[0, 0, 0, 0]⟩).2.entries =
      [⟨("k"), ⟨[0, 0, 0, 0]⟩⟩] :=
  (memory_set_eviction_and_cachefull ⟨[], 0, 4, 0, 0⟩ ("k") ⟨[0, 0, 0, 0]⟩
    rfl).2.2 rfl (by decide)

/-! ## Claim C10 — a failing memory-tier `set` is not atomic -/

/-- Claim C10: when `|v|` exceeds the memory tier's bound, `set(k, v)`
returns `CacheFull`, but only after the eviction loop has drained every
previously held entry: afterwards the container is empty, `size()` is 0 and
`stats().entry_count` is 0. -/
theorem memory_set_failure_clears_cache
    (s : LruMemoryCache.MemState) (k : StoreKey) (v : Bytes)
    (hwf : LruMemoryCache.Wf s) (hbig : s.max_size_bytes < v.len) :
    (LruMemoryCache.set s k v).1 = Except.error CacheError.CacheFull ∧
    (LruMemoryCache.set s k v).2.entries = [] ∧
    LruMemoryCache.size (LruMemoryCache.set s k v).2 = 0 ∧
    (LruMemoryCache.stats (LruMemoryCache.set s k v).2).entry_count = 0 := by
  have hev := LruMemoryCache.evict_if_needed_of_oversized hbig
    s.entries s.current_size hwf
  refine ⟨?_, ?_, ?_, ?_⟩ <;>
    simp [LruMemoryCache.set, hev, LruMemoryCache.size, LruMemoryCache.stats]

/-- Witness for `memory_set_failure_clears_cache`: a 4-byte tier holding one
2-byte entry, hit with a 5-byte `set`, reports `CacheFull` and is left
completely empty. -/
theorem memory_set_failure_clears_cache_witness :
    (LruMemoryCache.set ⟨[⟨("a"), ⟨[0, 0]⟩⟩], 2, 4, 0, 0⟩ ("k")
        ⟨[0, 0, 0, 0, 0]⟩).1 = Except.error CacheError.CacheFull ∧
    (LruMemoryCache.set ⟨[⟨("a"), ⟨[0, 0]⟩⟩], 2, 4, 0, 0⟩ ("k")
        ⟨[0, 0, 0, 0, 0]⟩).2.entries = [] ∧
    LruMemoryCache.size
      (LruMemoryCache.set ⟨[⟨("a"), ⟨[0, 0]⟩⟩], 2, 4, 0, 0⟩ ("k")
        ⟨[0, 0, 0, 0, 0]⟩).2 = 0 ∧
    (LruMemoryCache.stats
      (LruMemoryCache.set ⟨[⟨("a"), ⟨[0, 0]⟩⟩], 2, 4, 0, 0⟩ ("k")
        ⟨[0, 0, 0, 0, 0]⟩).2).entry_count = 0 :=
  memory_set_failure_clears_cache ⟨[⟨("a"), ⟨[0, 0]⟩⟩], 2, 4, 0, 0⟩ ("k")
    ⟨[0, 0, 0, 0, 0]⟩ rfl (by decide)

/-! ## Disk-tier eviction lemmas (claim C6) -/

/-- `min_by_last` only fails on the empty index. -/
theorem DiskCache.min_by_last_eq_none :
    ∀ {es : List DiskCache.DiskEntry},
      DiskCache.min_by_last es = none → es = [] := by
  intro es h
  cases es with
  | nil => rfl
  | cons e rest =>
    unfold DiskCache.min_by_last at h
    cases hrest : DiskCache.min_by_last rest with
    | none => rw [hrest] at h; exact absurd h (by simp)
    | some m' =>
      rw [hrest] at h
      dsimp only at h
      by_cases hle : e.last_accessed ≤ m'.last_accessed
      · rw [if_pos hle] at h; cases h
      · rw [if_neg hle] at h; cases h

/-- `min_by_last` returns a member of the index. -/
theorem DiskCache.min_by_last_mem :
    ∀ {es : List DiskCache.DiskEntry} {m : DiskCache.DiskEntry},
      DiskCache.min_by_last es = some m → m ∈ es := by
  intro es
  induction es with
  | nil => intro m h; exact absurd h (by simp [DiskCache.min_by_last])
  | cons e rest ih =>
    intro m h
    unfold DiskCache.min_by_last at h
    cases hrest : DiskCache.min_by_last rest with
    | none =>
      rw [hrest] at h
      dsimp only at h
      cases h
      exact List.mem_cons_self e rest
    | some m' =>
      rw [hrest] at h
      dsimp only at h
      by_cases hle : e.last_accessed ≤ m'.last_accessed
      · rw [if_pos hle] at h
        cases h
        exact List.mem_cons_self e rest
      · rw [if_neg hle] at h
        cases h
        exact List.mem_cons_of_mem e (ih hrest)

/-- `min_by_last` returns a minimal entry by `last_accessed`. -/
theorem DiskCache.min_by_last_le :
    ∀ {es : List DiskCache.DiskEntry} {m : DiskCache.DiskEntry},
      DiskCache.min_by_last es = some m →
      ∀ e ∈ es, m.last_accessed ≤ e.last_accessed := by
  intro es
  induction es with
  | nil => intro m h; exact absurd h (by simp [DiskCache.min_by_last])
  | cons e rest ih =>
    intro m h e2 he2
    unfold DiskCache.min_by_last at h
    cases hrest : DiskCache.min_by_last rest with
    | none =>
      have hrestnil : rest = [] := DiskCache.min_by_last_eq_none hrest
      subst hrestnil
      rw [hrest] at h
      dsimp only at h
      cases h
      rcases List.mem_cons.mp he2 with he2 | he2
      · rw [he2]
      · cases he2
    | some m' =>
      rw [hrest] at h
      dsimp only at h
      by_cases hle : e.last_accessed ≤ m'.last_accessed
      · rw [if_pos hle] at h
        cases h
        rcases List.mem_cons.mp he2 with he2 | he2
        · rw [he2]
        · exact Nat.le_trans hle (ih hrest e2 he2)
      · rw [if_neg hle] at h
        cases h
        rcases List.mem_cons.mp he2 with he2 | he2
        · rw [he2]
          exact Nat.le_of_lt (Nat.lt_of_not_le hle)
        · exact ih hrest e2 he2

/-- The eviction loop on an empty index, any fuel. -/
theorem DiskCache.evict_loop_nil {incoming max_size : Nat}
    (fuel cur : Nat) :
    DiskCache.evict_loop incoming max_size fuel [] cur =
      if max_size < cur + incoming then (some CacheError.CacheFull, [], cur)
      else (none, [], cur) := by
  conv_lhs => rw [DiskCache.evict_loop]
  rfl

/-- One iteration of the eviction loop when room must still be made. -/
theorem DiskCache.evict_loop_step {incoming max_size cur : Nat}
    {es : List DiskCache.DiskEntry} {m : DiskCache.DiskEntry} (f : Nat)
    (hcond : max_size < cur + incoming)
    (hmin : DiskCache.min_by_last es = some m) :
    DiskCache.evict_loop incoming max_size (f + 1) es cur =
      DiskCache.evict_loop incoming max_size f (es.erase m) (cur - m.size) := by
  conv_lhs => rw [DiskCache.evict_loop]
  rw [if_pos hcond, hmin]

/-- The eviction loop exits untouched when the bound is already satisfied. -/
theorem DiskCache.evict_loop_done {incoming max_size cur : Nat}
    {es : List DiskCache.DiskEntry} (fuel : Nat)
    (hcond : ¬ max_size < cur + incoming) :
    DiskCache.evict_loop incoming max_size fuel es cur = (none, es, cur) := by
  conv_lhs => rw [DiskCache.evict_loop]
  rw [if_neg hcond]

/-- Full specification of the disk eviction loop, for sufficient fuel, under
the tier's size invariant and pairwise-distinct access times: it succeeds
exactly when the incoming value fits the bound at all; on success the
survivors are a sublist of the index whose every member was accessed
strictly later than every evicted entry (least-recently-accessed entries go
first), the size counter is exact and the bound is met; `CacheFull` is
returned only with the index fully drained, i.e. when the value alone
overflows the bound. -/
theorem DiskCache.evict_loop_spec {incoming max_size : Nat} :
    ∀ (fuel : Nat) (es : List DiskCache.DiskEntry) (cur : Nat),
      es.length ≤ fuel →
      cur = DiskCache.sumSizes es →
      (es.map DiskCache.DiskEntry.last_accessed).Nodup →
      ∃ err es' cur',
        DiskCache.evict_loop incoming max_size fuel es cur =
          (err, es', cur') ∧
        (err = none ↔ incoming ≤ max_size) ∧
        (err = none →
          es'.Sublist es ∧ cur' = DiskCache.sumSizes es' ∧
          cur' + incoming ≤ max_size ∧
          ∀ e ∈ es', ∀ e2 ∈ es, e2 ∉ es' →
            e2.last_accessed < e.last_accessed) ∧
        (err = some CacheError.CacheFull →
          es' = [] ∧ max_size < incoming) := by
  intro fuel
  induction fuel with
  | zero =>
    intro es cur hfuel hwf hnd
    have hes : es = [] := List.length_eq_zero.mp (Nat.le_zero.mp hfuel)
    subst hes
    have hcur : cur = 0 := by simpa [DiskCache.sumSizes] using hwf
    subst hcur
    by_cases hcond : max_size < 0 + incoming
    · refine ⟨some CacheError.CacheFull, [], 0,
        by rw [DiskCache.evict_loop_nil, if_pos hcond], ?_, ?_, ?_⟩
      · simp
        omega
      · intro habs; cases habs
      · intro _
        exact ⟨rfl, by omega⟩
    · refine ⟨none, [], 0,
        by rw [DiskCache.evict_loop_nil, if_neg hcond], ?_, ?_, ?_⟩
      · simp
        omega
      · intro _
        refine ⟨List.Sublist.refl _, by simp [DiskCache.sumSizes], by omega, ?_⟩
        intro e he e2 he2 hne2
        exact absurd he2 hne2
      · intro habs; cases habs
  | succ f ih =>
    intro es cur hfuel hwf hnd
    by_cases hcond : max_size < cur + incoming
    · cases hmin : DiskCache.min_by_last es with
      | none =>
        have hes : es = [] := DiskCache.min_by_last_eq_none hmin
        subst hes
        have hcur : cur = 0 := by simpa [DiskCache.sumSizes] using hwf
        subst hcur
        refine ⟨some CacheError.CacheFull, [], 0,
          by rw [DiskCache.evict_loop_nil, if_pos hcond], ?_, ?_, ?_⟩
        · simp
          omega
        · intro habs; cases habs
        · intro _
          exact ⟨rfl, by omega⟩
      | some m =>
        have hm : m ∈ es := DiskCache.min_by_last_mem hmin
        have hmle := DiskCache.min_by_last_le hmin
        have hnd_es : es.Nodup := hnd.of_map
        have hlen : (es.erase m).length ≤ f := by
          rw [List.length_erase_of_mem hm]
          have h1 : 1 ≤ es.length := List.length_pos.mpr
            (List.ne_nil_of_mem hm)
          omega
        have hperm : es.Perm (m :: es.erase m) := List.perm_cons_erase hm
        have hsum : DiskCache.sumSizes es =
            m.size + DiskCache.sumSizes (es.erase m) := by
          have hps := (hperm.map DiskCache.DiskEntry.size).sum_eq
          simpa [DiskCache.sumSizes] using hps
        have hmsize : m.size ≤ cur := by
          rw [hwf, hsum]
          omega
        have hwf' : cur - m.size = DiskCache.sumSizes (es.erase m) := by
          omega
        have hnd' :
            ((es.erase m).map DiskCache.DiskEntry.last_accessed).Nodup :=
          hnd.sublist ((es.erase_sublist m).map _)
        obtain ⟨err, es', cur', heq, hiff, hok, herr⟩ :=
          ih (es.erase m) (cur - m.size) hlen hwf' hnd'
        refine ⟨err, es', cur', ?_, hiff, ?_, ?_⟩
        · rw [DiskCache.evict_loop_step f hcond hmin, heq]
        · intro hnone
          obtain ⟨hsub, hcur', hbound, horder⟩ := hok hnone
          refine ⟨hsub.trans (es.erase_sublist m), hcur', hbound, ?_⟩
          intro e he e2 he2 hne2
          have he_erase : e ∈ es.erase m := hsub.subset he
          have he_es : e ∈ es := (es.erase_sublist m).subset he_erase
          have hem : e ≠ m := by
            intro hcontra
            subst hcontra
            exact ((hnd_es.mem_erase_iff).mp he_erase).1 rfl
          by_cases he2m : e2 = m
          · subst he2m
            have hlt : e2.last_accessed ≤ e.last_accessed := hmle e he_es
            rcases Nat.lt_or_ge e2.last_accessed e.last_accessed with h | h
            · exact h
            · exfalso
              have hEq : e2.last_accessed = e.last_accessed := by omega
              exact hem (List.inj_on_of_nodup_map hnd he_es hm hEq.symm)
          · have he2_erase : e2 ∈ es.erase m :=
              (List.mem_erase_of_ne he2m).mpr he2
            exact horder e he e2 he2_erase hne2
        · intro hsome
          exact herr hsome
    · refine ⟨none, es, cur,
        DiskCache.evict_loop_done (f + 1) hcond, ?_, ?_, ?_⟩
      · simp
        omega
      · intro _
        refine ⟨List.Sublist.refl _, hwf, by omega, ?_⟩
        intro e he e2 he2 hne2
        exact absurd he2 hne2
      · intro habs; cases habs

/-! ## Claim C6 — disk-tier eviction order and `CacheFull` -/

/-- Claim C6: on a bounded disk tier (size invariant holding, access times
pairwise distinct), eviction during `set` removes entries in ascending
`last_accessed` order — every evicted entry was accessed strictly earlier
than every survivor — until `size + incoming ≤ max`, and `CacheFull` is
returned only with no entries left to evict and the bound still exceeded
(equivalently, exactly when the incoming value alone exceeds the bound).
In particular, in the concrete scenario where entry `"a"` (older) is touched
via `get` and entry `"b"` (equal size) is not, a subsequent `set` that must
evict one entry removes `"b"` and `"a"` survives. -/
theorem disk_eviction_lru_order_and_cachefull
    (s : DiskCache.DiskState) (incoming max_size : Nat)
    (hmax : s.max_size_bytes = some max_size)
    (hwf : DiskCache.Wf s)
    (hnd : (s.entries.map DiskCache.DiskEntry.last_accessed).Nodup) :
    (((DiskCache.evict_if_needed s incoming).1 = none ↔
        incoming ≤ max_size) ∧
     ((DiskCache.evict_if_needed s incoming).1 = none →
       (DiskCache.evict_if_needed s incoming).2.entries.Sublist s.entries ∧
       DiskCache.Wf (DiskCache.evict_if_needed s incoming).2 ∧
       (DiskCache.evict_if_needed s incoming).2.current_size + incoming ≤
         max_size ∧
       ∀ e ∈ (DiskCache.evict_if_needed s incoming).2.entries,
         ∀ e2 ∈ s.entries,
           e2 ∉ (DiskCache.evict_if_needed s incoming).2.entries →
             e2.last_accessed < e.last_accessed) ∧
     ((DiskCache.evict_if_needed s incoming).1 =
         some CacheError.CacheFull →
       (DiskCache.evict_if_needed s incoming).2.entries = [] ∧
       max_size < incoming)) ∧
    (DiskCache.set
        (DiskCache.get ⟨[⟨("a"), 10, 0, 1⟩, ⟨("b"), 10, 0, 2⟩], 20,
          some 25, 0, 0⟩ ("a") 3).2 ("c") ⟨List.replicate 10 0⟩ 4).2.entries =
      [⟨("a"), 10, 0, 3⟩, ⟨("c"), 10, 4, 4⟩] := by
  obtain ⟨err, es', cur', heq, hiff, hok, herr⟩ :=
    DiskCache.evict_loop_spec s.entries.length s.entries s.current_size
      (Nat.le_refl _) hwf hnd
  have hun : DiskCache.evict_if_needed s incoming =
      (err, { s with entries := es', current_size := cur' }) := by
    unfold DiskCache.evict_if_needed
    rw [hmax]
    dsimp only
    rw [heq]
  refine ⟨⟨?_, ?_, ?_⟩, by decide⟩
  · rw [hun]
    exact hiff
  · rw [hun]
    intro hnone
    obtain ⟨hsub, hcur', hbound, horder⟩ := hok hnone
    exact ⟨hsub, hcur', hbound, horder⟩
  · rw [hun]
    intro hsome
    exact herr hsome

/-- Witness for `disk_eviction_lru_order_and_cachefull`: a 25-byte-bounded
disk tier holding two 10-byte entries admits a further 10-byte value after
eviction. -/
theorem disk_eviction_lru_order_and_cachefull_witness :
    (DiskCache.evict_if_needed
        ⟨[⟨("a"), 10, 0, 1⟩, ⟨("b"), 10, 0, 2⟩], 20, some 25, 0, 0⟩ 10).1 =
      none :=
  (((disk_eviction_lru_order_and_cachefull
      ⟨[⟨("a"), 10, 0, 1⟩, ⟨("b"), 10, 0, 2⟩], 20, some 25, 0, 0⟩ 10 25
      rfl rfl (by decide)).1).1).mpr (by decide)

/-! ## Hybrid-engine lemmas (claims C5, C8) -/

/-- `find?` skips a prefix in which nothing matches. -/
theorem find?_append_none {α : Type} {p : α → Bool} {l₁ l₂ : List α}
    (h : l₁.find? p = none) : (l₁ ++ l₂).find? p = l₂.find? p := by
  induction l₁ with
  | nil => rfl
  | cons a l ih =>
    cases hpa : p a with
    | true => rw [List.find?_cons_of_pos _ hpa] at h; cases h
    | false =>
      have hpa' : ¬ p a = true := by simp [hpa]
      rw [List.find?_cons_of_neg _ hpa'] at h
      rw [List.cons_append, List.find?_cons_of_neg _ hpa']
      exact ih h

/-- A tracker entry fresh from `AccessInfo::new` reports frequency exactly 1
(count 1 over the 1-second fallback span), provided the clock is at least
one second old — `Instant` arithmetic would panic otherwise. -/
theorem AccessInfo.frequency_new (now : Nat) (h : 1000000000 ≤ now) :
    AccessInfo.frequency (AccessInfo.new now) = 1 := by
  rw [AccessInfo.frequency_eq]
  dsimp only [AccessInfo.new]
  rw [Option.getD_none, Nat.sub_sub_self h]
  rw [if_pos (by norm_num)]
  norm_num

/-- `DiskCache::set` on an unbounded tier always succeeds and replaces the
key's index entry at the back. -/
theorem DiskCache.set_unbounded (s : DiskCache.DiskState) (k : StoreKey)
    (v : Bytes) (now : Nat) (hmax : s.max_size_bytes = none) :
    DiskCache.set s k v now =
      (Except.ok (), { s with
        entries := (s.entries.eraseP (fun e => e.key == k)) ++
          [⟨k, v.len, now, now⟩],
        current_size := s.current_size -
          (match s.entries.find? (fun e => e.key == k) with
           | some old => old.size
           | none => 0) + v.len }) := by
  unfold DiskCache.set DiskCache.evict_if_needed
  conv_lhs => rw [hmax]

/-- `HybridCache::set` on a key with no prior tracker entry (disk tier
unbounded): the operation succeeds, the disk tier is updated through
`DiskCache::set`, the tracker gains the fresh entry, and the memory tier is
written if and only if the fresh entry's frequency — exactly 1 — clears the
promotion threshold. -/
theorem HybridCache.set_new_key (threshold : ℚ) (now : Nat)
    (h : HybridCache.HybridState) (k : StoreKey) (v : Bytes)
    (hnew : h.tracker.find? (fun p => p.1 == k) = none)
    (hdisk : h.disk.max_size_bytes = none) :
    HybridCache.set threshold now h k v =
      (Except.ok (),
       ⟨cond (decide (threshold ≤ AccessInfo.frequency (AccessInfo.new now)))
          (LruMemoryCache.set h.memory k v).2 h.memory,
        (DiskCache.set h.disk k v now).2,
        h.tracker ++ [(k, AccessInfo.new now)]⟩) := by
  have htr : HybridCache.track_access h.tracker k now =
      h.tracker ++ [(k, AccessInfo.new now)] := by
    unfold HybridCache.track_access
    rw [hnew]
  have hfind : (h.tracker ++ [(k, AccessInfo.new now)]).find?
      (fun p => p.1 == k) = some (k, AccessInfo.new now) := by
    rw [find?_append_none hnew]
    simp [List.find?_cons]
  have hds := DiskCache.set_unbounded h.disk k v now hdisk
  unfold HybridCache.set
  rw [htr]
  dsimp only
  rw [hds]
  dsimp only
  rw [hfind]
  dsimp only
  cases hb : decide (threshold ≤ AccessInfo.frequency (AccessInfo.new now)) <;>
    rfl

/-! ## Claim C5 — new keys and the memory tier on `set` -/

/-- Claim C5 counterexample: the claim says a `set` of a key with no prior
tracker entry writes the value to the memory tier regardless of the
configured `promotion_threshold`.  With `promotion_threshold = 2`, an empty
hybrid engine and a fresh key, `set` leaves the memory tier empty while the
disk tier holds the key: `track_access` runs before the memory decision, so
the fresh tracker entry (frequency exactly 1) is consulted, `1 ≥ 2` fails,
and the `unwrap_or(true)` new-key default never fires. -/
theorem hybrid_set_new_key_threshold_counterexample :
    (HybridCache.set 2 1000000000
        ⟨⟨[], 0, 1000, 0, 0⟩, ⟨[], 0, none, 0, 0⟩, []⟩ ("k")
        ⟨[0, 0, 0]⟩).2.memory.entries = [] ∧
    ((HybridCache.set 2 1000000000
        ⟨⟨[], 0, 1000, 0, 0⟩, ⟨[], 0, none, 0, 0⟩, []⟩ ("k")
        ⟨[0, 0, 0]⟩).2.disk.entries.map DiskCache.DiskEntry.key) =
      [("k")] := by
  have hb : decide ((2 : ℚ) ≤ AccessInfo.frequency
      (AccessInfo.new 1000000000)) = false := by
    rw [AccessInfo.frequency_new 1000000000 (by norm_num)]
    norm_num
  rw [HybridCache.set_new_key 2 1000000000
    ⟨⟨[], 0, 1000, 0, 0⟩, ⟨[], 0, none, 0, 0⟩, []⟩ ("k") ⟨[0, 0, 0]⟩
    rfl rfl, hb]
  constructor
  · rfl
  · rfl

/-- Claim C5 (amended): for a key with no prior tracker entry (memory tier
size invariant holding, disk tier unbounded, clock at least 1s),
`set(k, v)` succeeds and always writes `v` to the disk tier; the memory tier
receives `v` (at the MRU end) exactly when `promotion_threshold ≤ 1` — the
fresh tracker entry created by `track_access` before the decision has
frequency exactly 1 — and is left untouched when `promotion_threshold > 1`.
Memory-side failure is only logged. -/
theorem hybrid_set_new_key_memory_policy (threshold : ℚ) (now : Nat)
    (h : HybridCache.HybridState) (k : StoreKey) (v : Bytes)
    (hnew : h.tracker.find? (fun p => p.1 == k) = none)
    (hwfm : LruMemoryCache.Wf h.memory)
    (hdisk : h.disk.max_size_bytes = none)
    (hnow : 1000000000 ≤ now) :
    (HybridCache.set threshold now h k v).1 = Except.ok () ∧
    ((HybridCache.set threshold now h k v).2.disk.entries.map
        DiskCache.DiskEntry.key).getLast? = some k ∧
    (threshold ≤ 1 → v.len ≤ h.memory.max_size_bytes →
      (HybridCache.set threshold now h k v).2.memory.entries.getLast? =
        some ⟨k, v⟩) ∧
    (¬ threshold ≤ 1 →
      (HybridCache.set threshold now h k v).2.memory = h.memory) := by
  rw [HybridCache.set_new_key threshold now h k v hnew hdisk]
  have hds := DiskCache.set_unbounded h.disk k v now hdisk
  refine ⟨rfl, ?_, ?_, ?_⟩
  · rw [hds]
    simp
  · intro hth hfit
    have hb : decide (threshold ≤ AccessInfo.frequency
        (AccessInfo.new now)) = true := by
      rw [AccessInfo.frequency_new now hnow]
      exact decide_eq_true hth
    rw [hb]
    obtain ⟨j, hj, _, _⟩ :=
      LruMemoryCache.evict_if_needed_of_fits hfit h.memory.entries
        h.memory.current_size hwfm
    simp [LruMemoryCache.set, hj]
  · intro hth
    have hb : decide (threshold ≤ AccessInfo.frequency
        (AccessInfo.new now)) = false := by
      rw [AccessInfo.frequency_new now hnow]
      exact decide_eq_false hth
    rw [hb]
    rfl

/-- Witness for `hybrid_set_new_key_memory_policy`: with the default-like
threshold `1/10`, a fresh key's 3-byte value lands in both tiers. -/
theorem hybrid_set_new_key_memory_policy_witness :
    (HybridCache.set (1/10) 1000000000
        ⟨⟨[], 0, 1000, 0, 0⟩, ⟨[], 0, none, 0, 0⟩, []⟩ ("k")
        ⟨[0, 0, 0]⟩).1 = Except.ok () ∧
    (HybridCache.set (1/10) 1000000000
        ⟨⟨[], 0, 1000, 0, 0⟩, ⟨[], 0, none, 0, 0⟩, []⟩ ("k")
        ⟨[0, 0, 0]⟩).2.memory.entries.getLast? =
      some ⟨("k"), ⟨[0, 0, 0]⟩⟩ := by
  obtain ⟨h1, _, h3, _⟩ := hybrid_set_new_key_memory_policy (1/10) 1000000000
    ⟨⟨[], 0, 1000, 0, 0⟩, ⟨[], 0, none, 0, 0⟩, []⟩ ("k") ⟨[0, 0, 0]⟩
    rfl rfl rfl (by norm_num)
  exact ⟨h1, h3 (by norm_num) (by decide)⟩

/-! ## Claim C8 — hybrid `stats()` composition -/

/-- Claim C8: for every state of the hybrid engine, `stats()` uses the disk
tier's entry count as the authoritative count, reports `size_bytes` as the
sum of the two tiers' byte counts, and sums hits and misses across the
tiers.  In particular — second conjunct — a 5-byte value written through
`set` into an empty engine (threshold 1/10, so the fresh key is also
memory-cached) is counted twice: `size_bytes = 10` while `entry_count = 1`. -/
theorem hybrid_stats_composition :
    (∀ h : HybridCache.HybridState,
      (HybridCache.stats h).entry_count =
        (DiskCache.stats h.disk).entry_count ∧
      (HybridCache.stats h).size_bytes =
        LruMemoryCache.size h.memory + DiskCache.size h.disk ∧
      (HybridCache.stats h).hits =
        (LruMemoryCache.stats h.memory).hits +
          (DiskCache.stats h.disk).hits ∧
      (HybridCache.stats h).misses =
        (LruMemoryCache.stats h.memory).misses +
          (DiskCache.stats h.disk).misses) ∧
    (HybridCache.stats (HybridCache.set (1/10) 1000000000
        ⟨⟨[], 0, 1000, 0, 0⟩, ⟨[], 0, none, 0, 0⟩, []⟩ ("k")
        ⟨[0, 0, 0, 0, 0]⟩).2).size_bytes = 10 ∧
    (HybridCache.stats (HybridCache.set (1/10) 1000000000
        ⟨⟨[], 0, 1000, 0, 0⟩, ⟨[], 0, none, 0, 0⟩, []⟩ ("k")
        ⟨[0, 0, 0, 0, 0]⟩).2).entry_count = 1 := by
  have hb : decide ((1/10 : ℚ) ≤ AccessInfo.frequency
      (AccessInfo.new 1000000000)) = true := by
    rw [AccessInfo.frequency_new 1000000000 (by norm_num)]
    norm_num
  refine ⟨fun h => ⟨rfl, rfl, rfl, rfl⟩, ?_, ?_⟩
  · rw [HybridCache.set_new_key (1/10) 1000000000
      ⟨⟨[], 0, 1000, 0, 0⟩, ⟨[], 0, none, 0, 0⟩, []⟩ ("k")
      ⟨[0, 0, 0, 0, 0]⟩ rfl rfl, hb]
    rfl
  · rw [HybridCache.set_new_key (1/10) 1000000000
      ⟨⟨[], 0, 1000, 0, 0⟩, ⟨[], 0, none, 0, 0⟩, []⟩ ("k")
      ⟨[0, 0, 0, 0, 0]⟩ rfl rfl, hb]
    rfl

/-! ## Claim C9 — spatial-locality score -/

/-- Unfolding equation for `calculate_locality_score` with the `let`
bindings expanded. -/
theorem SpatialLocalityTracker.calculate_locality_score_eq
    (seq : List SpatialLocalityTracker.ChunkCoordinate) :
    SpatialLocalityTracker.calculate_locality_score seq =
      if seq.length < 2 then 0
      else if 0 < (seq.zip seq.tail).length then
        (((seq.zip seq.tail).countP
            (fun p => SpatialLocalityTracker.are_neighbors p.1 p.2)) : ℚ) /
          (((seq.zip seq.tail).length : Nat) : ℚ)
      else 0 := rfl

/-- Claim C9: the spatial-locality score always lies in `[0, 1]`; it is 0
for sequences of length < 2 and for sequences with no neighboring adjacent
pair; for a sequence of length ≥ 2 it equals the fraction of adjacent pairs
that are neighbors (out of `length − 1` transitions), and it is 1 when
every adjacent pair is a strict axis-neighbor. -/
theorem locality_score_bounds_and_fraction
    (seq : List SpatialLocalityTracker.ChunkCoordinate) :
    (0 ≤ SpatialLocalityTracker.calculate_locality_score seq ∧
     SpatialLocalityTracker.calculate_locality_score seq ≤ 1) ∧
    (seq.length < 2 →
      SpatialLocalityTracker.calculate_locality_score seq = 0) ∧
    (2 ≤ seq.length →
      SpatialLocalityTracker.calculate_locality_score seq =
        (((seq.zip seq.tail).countP
            (fun p => SpatialLocalityTracker.are_neighbors p.1 p.2)) : ℚ) /
          ((seq.length - 1 : Nat) : ℚ) ∧
      ((seq.zip seq.tail).countP
          (fun p => SpatialLocalityTracker.are_neighbors p.1 p.2) = 0 →
        SpatialLocalityTracker.calculate_locality_score seq = 0) ∧
      ((∀ p ∈ seq.zip seq.tail,
          SpatialLocalityTracker.are_neighbors p.1 p.2) →
        SpatialLocalityTracker.calculate_locality_score seq = 1)) := by
  have hplen : (seq.zip seq.tail).length = seq.length - 1 := by
    rw [List.length_zip, List.length_tail]
    exact Nat.min_eq_right (Nat.sub_le _ _)
  by_cases hlt : seq.length < 2
  · rw [SpatialLocalityTracker.calculate_locality_score_eq, if_pos hlt]
    refine ⟨⟨le_refl 0, by norm_num⟩, fun _ => rfl, fun hge => ?_⟩
    omega
  · have hge : 2 ≤ seq.length := by omega
    have hpos : 0 < (seq.zip seq.tail).length := by omega
    have hposq : (0 : ℚ) < (((seq.zip seq.tail).length : Nat) : ℚ) := by
      exact_mod_cast hpos
    have hcle : (seq.zip seq.tail).countP
        (fun p => SpatialLocalityTracker.are_neighbors p.1 p.2) ≤
        (seq.zip seq.tail).length := List.countP_le_length _
    rw [SpatialLocalityTracker.calculate_locality_score_eq, if_neg hlt,
      if_pos hpos]
    refine ⟨⟨?_, ?_⟩, fun habs => by omega, fun _ => ⟨?_, ?_, ?_⟩⟩
    · apply div_nonneg
      · exact_mod_cast Nat.zero_le _
      · exact le_of_lt hposq
    · rw [div_le_one hposq]
      exact_mod_cast hcle
    · rw [hplen]
    · intro hzero
      rw [hzero]
      norm_num
    · intro hall
      have hcnt : (seq.zip seq.tail).countP
          (fun p => SpatialLocalityTracker.are_neighbors p.1 p.2) =
          (seq.zip seq.tail).length := List.countP_eq_length.mpr hall
      rw [hcnt]
      exact div_self (ne_of_gt hposq)

/-- Witness for `locality_score_bounds_and_fraction`: two adjacent
axis-neighbor chunk coordinates score exactly 1. -/
theorem locality_score_bounds_and_fraction_witness :
    SpatialLocalityTracker.calculate_locality_score
      [⟨("a".data), [0, 0]⟩, ⟨("a".data), [0, 1]⟩] = 1 :=
  ((locality_score_bounds_and_fraction
      [⟨("a".data), [0, 0]⟩, ⟨("a".data), [0, 1]⟩]).2.2
    (by decide)).2.2 (by decide)
